import Mathlib

/-!
EResistance firmware (`src/main.c`): a shallow embedding.

The firmware targets an 8-bit AVR (`avr/io.h`), where `int` and `short` are
16 bits wide.  Integer variables are represented by their values (`Int`) or,
for bit manipulation, by their bit patterns (`Nat`), with explicit reductions
where the C code narrows a value.
-/

namespace EResistance

/-! ## Digit extraction and bit scattering -/

/-- The table `static int power10[] = {1, 1e1, 1e2, 1e3};` of `get_digit`. -/
def power10 : List Int := [1, 10, 100, 1000]

/-- Array read `power10[k]` with a signed index: reading outside the four
entries of the table has no defined value. -/
def power10At (k : Int) : Option Int :=
  if k < 0 then none else power10[k.toNat]?

/-- The function `short get_digit(short number, short n)`:
`number = number % power10[n+1]; if(n > 0) number = number / power10[n];`.
C division and remainder truncate toward zero. -/
def get_digit (number n : Int) : Option Int :=
  match power10At (n + 1) with
  | none => none
  | some hi =>
    let number := Int.tmod number hi
    if n > 0 then
      match power10At n with
      | none => none
      | some lo => some (Int.tdiv number lo)
    else some number

/-- The inner scan `while(!(mapper & (1 << it))) it++;` of `mapping4b`, on the
bit pattern of `mapper`.  The first argument counts the shift amounts that are
still below the width of `int` (16); when none is left the expression
`1 << it` is undefined and the scan has no result. -/
def findOne (mapper : Nat) : Nat → Nat → Option Nat
  | 0, _ => none
  | k + 1, it =>
    if mapper &&& (1 <<< it) = 0 then findOne mapper k (it + 1) else some it

/-- The loop `for(int i = 0; i < 4 && it < 8; i++)` of `mapping4b`; the first
argument is the number `4 - i` of values of `i` still to visit. -/
def mapLoop (bits mapper : Nat) : Nat → Nat → Nat → Nat → Option Nat
  | 0, _, _, out => some out
  | r + 1, i, it, out =>
    if it < 8 then
      match findOne mapper (16 - it) it with
      | none => none
      | some it1 =>
        let mask := bits &&& (1 <<< i)
        let out1 := if mask ≠ 0 then out ||| (1 <<< it1) else out
        mapLoop bits mapper r (i + 1) (it1 + 1) out1
    else some out

/-- The function `uint8_t mapping4b(const short bits, const short mapper)`, on
bit patterns; the `short out` is narrowed to `uint8_t` on return. -/
def mapping4b (bits mapper : Nat) : Option Nat :=
  (mapLoop bits mapper 4 0 0 0).map (fun out => out % 256)

/-! ## Arithmetic conventions -/

/-- Bitwise complement `~x` of a value promoted to the 16-bit `int`. -/
def bitNot16 (x : Nat) : Nat := 65535 ^^^ x

/-- Wrap-around of a value into the range of the 16-bit `int`. -/
def wrapInt16 (x : Int) : Int := (x + 32768) % 65536 - 32768

/-- Wrap-around of a value into the range of `int32_t`. -/
def wrapInt32 (x : Int) : Int := (x + 2147483648) % 4294967296 - 2147483648

/-- Subtraction `a - b` of two `uint32_t` values, modulo `2^32`. -/
def u32sub (a b : Nat) : Nat := (a + 4294967296 - b % 4294967296) % 4294967296

/-- Values of `float` expressions.  Finite values are represented by exact
rationals (rounding of the binary format is not modelled); `none` stands for a
non-finite value, which only a division by zero produces here. -/
abbrev FloatVal := Option ℚ

/-- Floating-point division `x / y`. -/
def fdiv (x y : ℚ) : FloatVal := if y = 0 then none else some (x / y)

/-- Truncation of a rational toward zero. -/
def truncQ (q : ℚ) : Int := Int.tdiv q.num q.den

/-- What the target's conversion routines return where C leaves the
float-to-integer conversion undefined (non-finite or out-of-range operand). -/
structure Target where
  fix32 : FloatVal → Int
  fix8 : FloatVal → Nat

/-- Conversion of a `float` to `int32_t`: truncation toward zero. -/
def toInt32 (pf : Target) (x : FloatVal) : Int :=
  match x with
  | some q =>
    if -2147483648 ≤ truncQ q ∧ truncQ q ≤ 2147483647 then truncQ q
    else wrapInt32 (pf.fix32 x)
  | none => wrapInt32 (pf.fix32 x)

/-- Conversion of a `float` to `uint8_t`: truncation toward zero. -/
def toUInt8 (pf : Target) (x : FloatVal) : Nat :=
  match x with
  | some q =>
    if 0 ≤ truncQ q ∧ truncQ q ≤ 255 then (truncQ q).toNat else pf.fix8 x % 256
  | none => pf.fix8 x % 256

/-- The constant `#define PI 3.14159265359`. -/
def PI : ℚ := 314159265359 / 100000000000

/-- The constant `#define RADIUS2 30e-2`. -/
def RADIUS2 : ℚ := 3 / 10

/-! ## Program state -/

/-- The globals, the function-local statics, the locals of `main` that live
across loop passes, and the I/O registers the program writes. -/
structure State where
  ofc : Int
  motor_rot : Int
  rot_vel : Int
  temp : Int
  cell : Int
  light : Int
  time_ms : Nat
  current : Nat
  time_1000ms : Nat
  time_2000ms : Nat
  time_5000ms : Nat
  display_number : Nat
  str_rpm : String
  str_Vel : String
  str_cell : String
  str_temp : String
  PORTB : Nat
  PORTC : Nat
  PORTD : Nat
  ADMUX : Nat
  OCR0A : Nat

/-- The state when `main` enters its loop: zero-initialised globals and
statics, and the register values written by the setup code. -/
def init : State :=
  { ofc := 0, motor_rot := 0, rot_vel := 0, temp := 0, cell := 0, light := 0,
    time_ms := 0, current := 0,
    time_1000ms := 0, time_2000ms := 0, time_5000ms := 0,
    display_number := 0,
    str_rpm := "RPM: 0", str_Vel := "VEL: 0",
    str_cell := "CELL: 0", str_temp := "TEMP: 0",
    PORTB := 0, PORTC := 0, PORTD := 0b00001000,
    ADMUX := 0b11000100, OCR0A := 200 }

/-! ## Interrupt handlers -/

/-- The handler `ISR(TIMER1_COMPA_vect)`: `time_ms += 1;`. -/
def TIMER1_COMPA_vect (s : State) : State :=
  { s with time_ms := (s.time_ms + 1) % 4294967296 }

/-- The handler `ISR(INT1_vect)`: `PORTD ^= 0b10000000;`. -/
def INT1_vect (s : State) : State :=
  { s with PORTD := s.PORTD ^^^ 0b10000000 }

/-- The handler `ISR(INT0_vect)`: `motor_rot++; rot_vel++;`, the 16-bit `int`
counters wrapping around as they do on the target. -/
def INT0_vect (s : State) : State :=
  { s with motor_rot := wrapInt16 (s.motor_rot + 1),
           rot_vel := wrapInt16 (s.rot_vel + 1) }

/-- The handler `ISR(ADC_vect)`; `ADC` is the value of the conversion result
register read into `float adc`. -/
def ADC_vect (pf : Target) (s : State) (ADC : Nat) : State :=
  let adc : ℚ := ADC
  if s.current = 0 then
    let res : ℚ := 191 / 2 * adc + 20
    { s with ADMUX := 0b00000100,
             temp := toInt32 pf (some (res * (11 / 10) / 1023)),
             current := (s.current + 1) % 256 }
  else if s.current = 1 then
    { s with ADMUX := 0b00000011,
             cell := toInt32 pf (some (adc / 1023 * 100)),
             current := (s.current + 1) % 256 }
  else
    let light := toInt32 pf ((fdiv 1023000 adc).map (fun q => q - 1000))
    { s with ADMUX := 0b11000101,
             light := light,
             OCR0A := if light > 500 then 0 else if light > 300 then 125 else 255,
             current := 0 }

/-- A run of `ISR(ADC_vect)` firings, one per completed conversion. -/
def ADC_run (pf : Target) (s : State) (raws : List Nat) : State :=
  raws.foldl (ADC_vect pf) s

/-- A target whose conversion routines saturate upward on operands they
cannot represent. -/
def saturating : Target := { fix32 := fun _ => 2147483647, fix8 := fun _ => 255 }

/-- A target whose conversion routines return the lowest value on operands
they cannot represent. -/
def lowest : Target := { fix32 := fun _ => -2147483648, fix8 := fun _ => 0 }

/-! ## Velocity -/

/-- The function `float vmed(uint8_t deltat)`: the returned value and the state
afterwards.  `rot_vel / deltat` is an `int` division, undefined for a zero
divisor. -/
def vmed (s : State) (deltat : Nat) : Option (ℚ × State) :=
  if deltat = 0 then none
  else
    let RPM : ℚ := ((Int.tdiv s.rot_vel (deltat : Int) : Int) : ℚ)
    let VEL : ℚ := RPM * PI * RADIUS2
    some (VEL * (18 / 5), { s with rot_vel := 0 })

/-! ## Main loop -/

/-- The function `display7seg(digit, port, adr)`, as the new value of `*port`
(an `int`): `(*port) &= ~adr; (*port) |= mapping4b(digit, adr);`. -/
def display7seg (digit port adr : Nat) : Option Nat :=
  match mapping4b digit adr with
  | none => none
  | some m => some ((port &&& bitNot16 adr) ||| m)

/-- The local `uint8_t led7seg = 0b01000111;` of `main`. -/
def led7seg : Nat := 0b01000111

/-- The local `uint8_t led7enb[] = {(1<<0), (1<<1), (1<<4)};` of `main`. -/
def led7enb : List Nat := [1, 2, 16]

/-- One iteration of `while(current_digit < 3)`: the digit-enable lines of
`PORTD` are cleared, the line of `current_digit` is raised, and the digit is
put on `PORTC`.  Only the byte of `PORTC` itself is tracked for the write
through `int * port`. -/
def digitStep (s : State) (current_digit : Nat) : Option State :=
  match led7enb[current_digit]? with
  | none => none
  | some enb =>
    let portd := ((s.PORTD &&& bitNot16 (1 ||| 2 ||| 16)) % 256) ||| enb
    match get_digit s.display_number current_digit with
    | none => none
    | some d =>
      match display7seg (d % 256).toNat s.PORTC led7seg with
      | none => none
      | some portc => some { s with PORTD := portd, PORTC := portc % 256 }

/-- The loop `while(current_digit < 3)` with `current_digit` starting at 0. -/
def digitLoop (s : State) : Option State :=
  (digitStep s 0).bind fun s0 => (digitStep s0 1).bind fun s1 => digitStep s1 2

/-- The test `(time_ms - last) > period` of a soft timer. -/
def elapsed (time_ms last period : Nat) : Bool :=
  decide (u32sub time_ms last > period)

/-- The block guarded by `if((time_ms - time_1000ms) > 1000)`. -/
def timer1000 (s : State) : State :=
  if elapsed s.time_ms s.time_1000ms 1000 then
    { s with str_rpm := "RPM: " ++ toString s.motor_rot ++ " rot/m",
             str_cell := "CELL: " ++ toString s.cell ++ " pc",
             motor_rot := 0,
             time_1000ms := s.time_ms }
  else s

/-- The block guarded by `if((time_ms - time_2000ms) > 2000)`. -/
def timer2000 (s : State) : State :=
  if elapsed s.time_ms s.time_2000ms 2000 then
    { s with str_temp := "TEMP: " ++ toString s.temp ++ " C",
             PORTB := if s.temp > 80 then s.PORTB ||| 1
                      else (s.PORTB &&& bitNot16 1) % 256,
             time_2000ms := s.time_ms }
  else s

/-- The block guarded by `if((time_ms - time_5000ms) > 5000)`. -/
def timer5000 (pf : Target) (s : State) : Option State :=
  if elapsed s.time_ms s.time_5000ms 5000 then
    match vmed s 5 with
    | none => none
    | some (v, s1) =>
      let display_number := toUInt8 pf (some v)
      some { s1 with display_number := display_number,
                     str_Vel := "VEL " ++ toString display_number,
                     time_5000ms := s1.time_ms }
  else some s

/-- One pass of `while (1)` in `main`, without interruption; the calls into
the LCD driver are external and leave the state above untouched. -/
def loopPass (pf : Target) (s : State) : Option State :=
  (digitLoop s).bind fun s1 => timer5000 pf (timer2000 (timer1000 s1))

/-- The state `s` with `PORTD` and `PORTC` replaced (used to state what the
multiplexing loop leaves untouched). -/
def withPorts (s : State) (pd pc : Nat) : State := { s with PORTD := pd, PORTC := pc }

/-- The state after `e` firings of `ISR(TIMER1_COMPA_vect)`. -/
def ticks : Nat → State → State
  | 0, s => s
  | e + 1, s => ticks e (TIMER1_COMPA_vect s)

/-- The loop of `mapping4b` again, also recording the final value of the scan
index `it` and the positions at which the inner scan stopped, one per
iteration of the `for` loop. -/
def mapLoopTrace (bits mapper : Nat) :
    Nat → Nat → Nat → Nat → List Nat → Option (Nat × Nat × List Nat)
  | 0, _, it, out, stops => some (out, it, stops)
  | r + 1, i, it, out, stops =>
    if it < 8 then
      match findOne mapper (16 - it) it with
      | none => none
      | some it1 =>
        let mask := bits &&& (1 <<< i)
        let out1 := if mask ≠ 0 then out ||| (1 <<< it1) else out
        mapLoopTrace bits mapper r (i + 1) (it1 + 1) out1 (stops ++ [it1])
    else some (out, it, stops)

/-! ## Helper lemmas -/

theorem and_one_shiftLeft_eq_zero (m it : Nat) :
    m &&& (1 <<< it) = 0 ↔ m.testBit it = false := by
  rw [Nat.one_shiftLeft, Nat.and_two_pow]
  cases h : m.testBit it <;> simp

theorem findOne_eq (mapper : Nat) :
    ∀ (k it p : Nat), it ≤ p → p < it + k → mapper.testBit p = true →
      (∀ j, it ≤ j → j < p → mapper.testBit j = false) →
      findOne mapper k it = some p := by
  intro k
  induction k with
  | zero => intro it p h1 h2; omega
  | succ k ih =>
    intro it p h1 h2 hp hlow
    rw [findOne]
    by_cases hit : it = p
    · subst hit
      have : ¬ (mapper &&& (1 <<< it) = 0) := by
        rw [and_one_shiftLeft_eq_zero]; simp [hp]
      simp [this]
    · have hz : mapper &&& (1 <<< it) = 0 := by
        rw [and_one_shiftLeft_eq_zero]; exact hlow it (le_refl _) (by omega)
      simp only [hz, if_true]
      exact ih (it + 1) p (by omega) (by omega) hp
        (fun j hj1 hj2 => hlow j (by omega) hj2)

/-- The update of `out` in one iteration of the loop of `mapping4b`, once the
scan has stopped at position `p`. -/
theorem mapLoop_step (bits mapper r i it out p : Nat) (hit : it < 8)
    (hf : findOne mapper (16 - it) it = some p) :
    mapLoop bits mapper (r + 1) i it out =
      mapLoop bits mapper r (i + 1) (p + 1)
        (if bits &&& (1 <<< i) ≠ 0 then out ||| (1 <<< p) else out) := by
  rw [mapLoop]
  simp only [hit, if_true, hf]

theorem testBit_scatter (bits i p out j : Nat) :
    (if bits &&& (1 <<< i) ≠ 0 then out ||| (1 <<< p) else out).testBit j =
      (out.testBit j || (bits.testBit i && decide (p = j))) := by
  by_cases h : bits.testBit i = true
  · have hne : bits &&& (1 <<< i) ≠ 0 := by
      rw [Ne, and_one_shiftLeft_eq_zero]; simp [h]
    rw [if_pos hne]
    simp [h, Nat.testBit_or, Nat.one_shiftLeft, Nat.testBit_two_pow]
  · have hz : bits &&& (1 <<< i) = 0 := by
      rw [and_one_shiftLeft_eq_zero]; simpa using h
    have hne : ¬ (bits &&& (1 <<< i) ≠ 0) := by simp [hz]
    rw [if_neg hne]
    simp at h
    simp [h]

/-- With `p0 < p1 < p2 < p3 ≤ 7` the four lowest set bits of `mapper`, the loop
of `mapping4b` runs its four iterations and stops the scans at `p0 .. p3`. -/
theorem mapLoop_four (bits mapper p0 p1 p2 p3 : Nat)
    (h01 : p0 < p1) (h12 : p1 < p2) (h23 : p2 < p3) (h3 : p3 ≤ 7)
    (hs0 : mapper.testBit p0 = true) (hs1 : mapper.testBit p1 = true)
    (hs2 : mapper.testBit p2 = true) (hs3 : mapper.testBit p3 = true)
    (hlow : ∀ j, j < p3 → mapper.testBit j = true → j = p0 ∨ j = p1 ∨ j = p2) :
    ∃ out, mapLoop bits mapper 4 0 0 0 = some out ∧
      ∀ j, out.testBit j =
        ((bits.testBit 0 && decide (p0 = j)) || (bits.testBit 1 && decide (p1 = j)) ||
         (bits.testBit 2 && decide (p2 = j)) || (bits.testBit 3 && decide (p3 = j))) := by
  have hfalse : ∀ j, j < p3 → j ≠ p0 → j ≠ p1 → j ≠ p2 → mapper.testBit j = false := by
    intro j hj a b c
    cases hb : mapper.testBit j with
    | false => rfl
    | true => rcases hlow j hj hb with h | h | h <;> contradiction
  have f0 : findOne mapper (16 - 0) 0 = some p0 :=
    findOne_eq mapper _ 0 p0 (by omega) (by omega) hs0
      (fun j _ hj => hfalse j (by omega) (by omega) (by omega) (by omega))
  have f1 : findOne mapper (16 - (p0 + 1)) (p0 + 1) = some p1 :=
    findOne_eq mapper _ _ p1 (by omega) (by omega) hs1
      (fun j _ hj => hfalse j (by omega) (by omega) (by omega) (by omega))
  have f2 : findOne mapper (16 - (p1 + 1)) (p1 + 1) = some p2 :=
    findOne_eq mapper _ _ p2 (by omega) (by omega) hs2
      (fun j _ hj => hfalse j (by omega) (by omega) (by omega) (by omega))
  have f3 : findOne mapper (16 - (p2 + 1)) (p2 + 1) = some p3 :=
    findOne_eq mapper _ _ p3 (by omega) (by omega) hs3
      (fun j _ hj => hfalse j (by omega) (by omega) (by omega) (by omega))
  rw [mapLoop_step bits mapper 3 0 0 0 p0 (by omega) f0,
    mapLoop_step bits mapper 2 1 (p0 + 1) _ p1 (by omega) f1,
    mapLoop_step bits mapper 1 2 (p1 + 1) _ p2 (by omega) f2,
    mapLoop_step bits mapper 0 3 (p2 + 1) _ p3 (by omega) f3, mapLoop]
  refine ⟨_, rfl, fun j => ?_⟩
  simp only [testBit_scatter, Nat.zero_testBit, Bool.false_or]

/-- One firing of the ADC handler moves `current` to its cyclic successor. -/
theorem ADC_vect_current (pf : Target) (s : State) (raw : Nat) (h : s.current < 3) :
    (ADC_vect pf s raw).current = (s.current + 1) % 3 := by
  have hc : s.current = 0 ∨ s.current = 1 ∨ s.current = 2 := by omega
  rcases hc with h0 | h0 | h0 <;> simp [ADC_vect, h0]

theorem ADC_run_current (pf : Target) (raws : List Nat) :
    ∀ s : State, s.current < 3 →
      (ADC_run pf s raws).current = (s.current + raws.length) % 3 := by
  induction raws with
  | nil => intro s h; simp [ADC_run, Nat.mod_eq_of_lt h]
  | cons raw rest ih =>
    intro s h
    have hstep := ADC_vect_current pf s raw h
    have hlt : (ADC_vect pf s raw).current < 3 := by rw [hstep]; omega
    have := ih (ADC_vect pf s raw) hlt
    simp only [ADC_run, List.foldl_cons, List.length_cons] at this ⊢
    rw [this, hstep]
    omega

/-- On non-negative rationals truncation toward zero is the floor. -/
theorem truncQ_eq_floor (q : ℚ) (h : 0 ≤ q) : truncQ q = ⌊q⌋ := by
  unfold truncQ
  rw [Int.tdiv_eq_ediv (Rat.num_nonneg.mpr h) (by positivity), ← Rat.floor_def]

theorem truncQ_natDiv (a b : Nat) : truncQ ((a : ℚ) / b) = ((a / b : Nat) : Int) := by
  rw [truncQ_eq_floor _ (by positivity), Rat.floor_natCast_div_natCast]
  norm_cast

/-- For a non-zero `deltat`, `vmed` returns, with the window count reset. -/
theorem vmed_eq (u : State) (d : Nat) (hd : 0 < d) :
    vmed u d = some (((Int.tdiv u.rot_vel (d : Int) : Int) : ℚ) * PI * (3 / 10) * (36 / 10),
      { u with rot_vel := 0 }) := by
  have hd0 : d ≠ 0 := by omega
  simp only [vmed, hd0, if_false, RADIUS2]
  congr 2
  ring

/-- The mapper `led7seg` of `main` has its four lowest set bits at positions
0, 1, 2 and 6, so `mapping4b` returns for every digit. -/
theorem mapping4b_led7seg (bits : Nat) : ∃ m, mapping4b bits led7seg = some m := by
  obtain ⟨o, ho, _⟩ := mapLoop_four bits led7seg 0 1 2 6 (by decide) (by decide) (by decide)
    (by decide) (by decide) (by decide) (by decide) (by decide)
    (by
      intro j hj
      interval_cases j <;> simp [led7seg] <;> decide)
  exact ⟨o % 256, by simp [mapping4b, ho]⟩

theorem get_digit_some (n : Int) (k : Nat) (hk : k ≤ 2) : ∃ d, get_digit n k = some d := by
  interval_cases k <;> simp [get_digit, power10At, power10]

/-- One multiplexing step returns and writes only `PORTD` and `PORTC`. -/
theorem digitStep_frame (s : State) (k : Nat) (hk : k ≤ 2) :
    ∃ pd pc, digitStep s k = some (withPorts s pd pc) := by
  obtain ⟨d, hd⟩ := get_digit_some s.display_number k hk
  obtain ⟨m, hm⟩ := mapping4b_led7seg (d % 256).toNat
  have he : ∃ e, led7enb[k]? = some e := by
    interval_cases k <;> simp [led7enb]
  obtain ⟨e, he⟩ := he
  simp only [digitStep, he, hd, display7seg, hm]
  exact ⟨_, _, rfl⟩

/-- The multiplexing loop returns and writes only `PORTD` and `PORTC`. -/
theorem digitLoop_frame (s : State) :
    ∃ pd pc, digitLoop s = some (withPorts s pd pc) := by
  obtain ⟨pd0, pc0, h0⟩ := digitStep_frame s 0 (by decide)
  obtain ⟨pd1, pc1, h1⟩ := digitStep_frame (withPorts s pd0 pc0) 1 (by decide)
  obtain ⟨pd2, pc2, h2⟩ := digitStep_frame (withPorts (withPorts s pd0 pc0) pd1 pc1) 2 (by decide)
  refine ⟨pd2, pc2, ?_⟩
  rw [digitLoop, h0, Option.some_bind, h1, Option.some_bind, h2]
  rfl

/-- The 5 s block always returns. -/
theorem timer5000_eq (pf : Target) (u : State) :
    ∃ (dn : Nat) (sv : String), timer5000 pf u = some
      (if elapsed u.time_ms u.time_5000ms 5000 then
        { u with rot_vel := 0, display_number := dn, str_Vel := sv,
                 time_5000ms := u.time_ms }
       else u) := by
  by_cases h : elapsed u.time_ms u.time_5000ms 5000 = true
  · simp only [timer5000, h, if_true, vmed_eq u 5 (by decide)]
    exact ⟨_, _, rfl⟩
  · exact ⟨0, "", by simp [timer5000, h]⟩

/-- The subtraction of `uint32_t` values is the difference modulo `2^32`. -/
theorem u32sub_eq (a b : Nat) :
    ((u32sub a b : Nat) : Int) = ((a : Int) - (b : Int)) % 4294967296 := by
  unfold u32sub
  omega

theorem u32sub_self (a : Nat) : u32sub a a = 0 := by
  unfold u32sub
  omega

/-- A loop pass returns; what it does to the soft timers, the rotation
counters and `PORTB`, in terms of the three timer tests on the prior state. -/
theorem loopPass_fields (pf : Target) (s : State) :
    ∃ s1, loopPass pf s = some s1 ∧ s1.time_ms = s.time_ms ∧
      s1.time_1000ms =
        (if elapsed s.time_ms s.time_1000ms 1000 then s.time_ms else s.time_1000ms) ∧
      s1.time_2000ms =
        (if elapsed s.time_ms s.time_2000ms 2000 then s.time_ms else s.time_2000ms) ∧
      s1.time_5000ms =
        (if elapsed s.time_ms s.time_5000ms 5000 then s.time_ms else s.time_5000ms) ∧
      s1.motor_rot = (if elapsed s.time_ms s.time_1000ms 1000 then 0 else s.motor_rot) ∧
      s1.rot_vel = (if elapsed s.time_ms s.time_5000ms 5000 then 0 else s.rot_vel) ∧
      s1.PORTB =
        (if elapsed s.time_ms s.time_2000ms 2000 then
          (if s.temp > 80 then s.PORTB ||| 1 else (s.PORTB &&& bitNot16 1) % 256)
         else s.PORTB) := by
  obtain ⟨pd, pc, hloop⟩ := digitLoop_frame s
  obtain ⟨dn, sv, h5⟩ := timer5000_eq pf (timer2000 (timer1000 (withPorts s pd pc)))
  refine ⟨_, by rw [loopPass, hloop, Option.some_bind, h5], ?_⟩
  by_cases e1 : elapsed s.time_ms s.time_1000ms 1000 = true <;>
  by_cases e2 : elapsed s.time_ms s.time_2000ms 2000 = true <;>
  by_cases e5 : elapsed s.time_ms s.time_5000ms 5000 = true <;>
  simp [timer1000, timer2000, withPorts, e1, e2, e5]

theorem elapsed_iff (now last P : Nat) :
    elapsed now last P = true ↔ (P : Int) < ((now : Int) - (last : Int)) % 4294967296 := by
  rw [← u32sub_eq]
  simp [elapsed]

theorem elapsed_self (now P : Nat) : elapsed now now P = false := by
  simp [elapsed, u32sub_self]

theorem testBit_high_of_lt_256 (x j : Nat) (hx : x < 256) (hj : 8 ≤ j) :
    x.testBit j = false := by
  apply Nat.testBit_lt_two_pow
  calc x < 2 ^ 8 := by norm_num; exact hx
    _ ≤ 2 ^ j := Nat.pow_le_pow_right (by norm_num) hj

/-- The statement `PORTB |= 0x1;` sets bit 0 and keeps the other bits. -/
theorem testBit_or_one (x j : Nat) :
    (x ||| 1).testBit j = (decide (j = 0) || x.testBit j) := by
  rw [Nat.testBit_or]
  by_cases h : j = 0
  · subst h; simp
  · have : Nat.testBit 1 j = false := by
      cases hb : Nat.testBit 1 j with
      | false => rfl
      | true => exact absurd (Nat.testBit_one_eq_true_iff_self_eq_zero.mp hb) h
    simp [this, h]

/-- The statement `PORTB &= ~0x1;` clears bit 0 and keeps the other bits of
the 8-bit register. -/
theorem testBit_and_not_one (x j : Nat) (hx : x < 256) :
    ((x &&& bitNot16 1) % 256).testBit j = (!decide (j = 0) && x.testBit j) := by
  have h256 : (256 : Nat) = 2 ^ 8 := by norm_num
  rw [h256, Nat.testBit_mod_two_pow, Nat.testBit_and]
  by_cases hj : j < 8
  · interval_cases j <;> simp [bitNot16] <;> intro _ <;> decide
  · have := testBit_high_of_lt_256 x j hx (by omega)
    simp [this]

/-- The light formula for a non-zero 10-bit reading: the quotient is finite
and the converted value is `1023000 / raw - 1000` with integer division. -/
theorem light_value (pf : Target) (raw : Nat) (h1 : 1 ≤ raw) (h2 : raw ≤ 1023) :
    toInt32 pf ((fdiv 1023000 (raw : ℚ)).map (fun q => q - 1000)) =
      ((1023000 / raw : Nat) : Int) - 1000 := by
  have hne : (raw : ℚ) ≠ 0 := by
    have : (0 : ℚ) < raw := by exact_mod_cast h1
    exact ne_of_gt this
  have hq : (1023000 : ℚ) / raw - 1000 = (((1023000 - 1000 * raw : Nat) : ℚ)) / raw := by
    rw [Nat.cast_sub (by omega)]
    field_simp
    ring
  have hdiv : (1023000 - 1000 * raw) / raw = 1023000 / raw - 1000 := by
    rw [Nat.mul_comm 1000 raw]
    exact Nat.sub_mul_div _ _ _ (by nlinarith)
  have hle : 1023000 / raw ≤ 1023000 := Nat.div_le_self _ _
  have hge : 1000 ≤ 1023000 / raw := by
    rw [Nat.le_div_iff_mul_le (by omega)]
    omega
  have ht : truncQ ((1023000 : ℚ) / raw - 1000) = ((1023000 / raw : Nat) : Int) - 1000 := by
    rw [hq, truncQ_natDiv, hdiv]
    omega
  simp only [fdiv, hne, if_false, Option.map_some', toInt32, ht]
  rw [if_pos (by omega)]

/-- After `e` clock ticks the counter is the sum modulo `2^32`. -/
theorem ticks_time_ms (e : Nat) :
    ∀ s : State, s.time_ms < 4294967296 →
      (ticks e s).time_ms = (s.time_ms + e) % 4294967296 := by
  induction e with
  | zero => intro s hs; simp [ticks, Nat.mod_eq_of_lt hs]
  | succ e ih =>
    intro s hs
    have hlt : (TIMER1_COMPA_vect s).time_ms < 4294967296 := by
      simp only [TIMER1_COMPA_vect]
      exact Nat.mod_lt _ (by norm_num)
    rw [ticks, ih _ hlt]
    simp only [TIMER1_COMPA_vect]
    omega

/-- The timer test after a true elapsed time `e < 2^32`, wrap or no wrap. -/
theorem elapsed_after (last e P : Nat) (hl : last < 4294967296) (he : e < 4294967296) :
    elapsed ((last + e) % 4294967296) last P = decide (P < e) := by
  have h : u32sub ((last + e) % 4294967296) last = e := by
    unfold u32sub
    omega
  simp [elapsed, h]

/-- The cell formula for a 10-bit reading: the converted value is
`100 * raw / 1023` with integer division. -/
theorem truncQ_cell (raw : Nat) :
    truncQ ((raw : ℚ) / 1023 * 100) = ((100 * raw / 1023 : Nat) : Int) := by
  have hq : (raw : ℚ) / 1023 * 100 = (((100 * raw : Nat) : ℚ)) / ((1023 : Nat) : ℚ) := by
    push_cast
    ring
  rw [hq, truncQ_natDiv]

theorem cell_value (pf : Target) (raw : Nat) (h : raw ≤ 1023) :
    toInt32 pf (some ((raw : ℚ) / 1023 * 100)) = ((100 * raw / 1023 : Nat) : Int) := by
  have hle : 100 * raw / 1023 ≤ 100 := by
    rw [Nat.div_le_iff_le_mul_add_pred (by norm_num)]
    omega
  simp only [toInt32, truncQ_cell]
  rw [if_pos (by omega)]

/-- Truncation of the light formula for a non-zero 10-bit reading. -/
theorem truncQ_light (raw : Nat) (h1 : 1 ≤ raw) (h2 : raw ≤ 1023) :
    truncQ ((1023000 : ℚ) / raw - 1000) = ((1023000 / raw : Nat) : Int) - 1000 := by
  have hne : (raw : ℚ) ≠ 0 := by
    have : (0 : ℚ) < raw := by exact_mod_cast h1
    exact ne_of_gt this
  have hq : (1023000 : ℚ) / raw - 1000 = (((1023000 - 1000 * raw : Nat) : ℚ)) / raw := by
    rw [Nat.cast_sub (by omega)]
    field_simp
    ring
  have hdiv : (1023000 - 1000 * raw) / raw = 1023000 / raw - 1000 := by
    rw [Nat.mul_comm 1000 raw]
    exact Nat.sub_mul_div _ _ _ (by nlinarith)
  have hge : 1000 ≤ 1023000 / raw := by
    rw [Nat.le_div_iff_mul_le (by omega)]
    omega
  rw [hq, truncQ_natDiv, hdiv]
  omega

/-- The LIGHT step for a non-zero 10-bit reading, in integer arithmetic. -/
theorem ADC_vect_light (pf : Target) (s : State) (raw : Nat) (hc : s.current = 2)
    (h1 : 1 ≤ raw) (h2 : raw ≤ 1023) :
    (ADC_vect pf s raw).light = ((1023000 / raw : Nat) : Int) - 1000 ∧
    (ADC_vect pf s raw).OCR0A =
      (if raw ≤ 681 then 0 else if raw ≤ 786 then 125 else 255) := by
  have hv := light_value pf raw h1 h2
  have hpos : 0 < raw := by omega
  have a : ((1023000 / raw : Nat) : Int) - 1000 > 500 ↔ raw ≤ 681 := by
    have : 1501 ≤ 1023000 / raw ↔ 1501 * raw ≤ 1023000 := Nat.le_div_iff_mul_le hpos
    omega
  have b : ((1023000 / raw : Nat) : Int) - 1000 > 300 ↔ raw ≤ 786 := by
    have : 1301 ≤ 1023000 / raw ↔ 1301 * raw ≤ 1023000 := Nat.le_div_iff_mul_le hpos
    omega
  constructor
  · simp only [ADC_vect, hc]
    exact hv
  · simp only [ADC_vect, hc]
    simp only [show ¬ (2 = 0) by decide, show ¬ (2 = 1) by decide, if_false, hv, a, b]

/-- One multiplexing step, with the value it leaves in `PORTD`. -/
theorem digitStep_PORTD (s : State) (k : Nat) (hk : k ≤ 2) :
    ∃ e pc, led7enb[k]? = some e ∧
      digitStep s k =
        some (withPorts s (((s.PORTD &&& bitNot16 (1 ||| 2 ||| 16)) % 256) ||| e) pc) := by
  obtain ⟨d, hd⟩ := get_digit_some s.display_number k hk
  obtain ⟨m, hm⟩ := mapping4b_led7seg (d % 256).toNat
  have he : ∃ e, led7enb[k]? = some e := by
    interval_cases k <;> simp [led7enb]
  obtain ⟨e, he⟩ := he
  simp only [digitStep, he, hd, display7seg, hm]
  exact ⟨e, _, rfl, rfl⟩

/-- The statement `PORTD &= ~((1<<0) | (1<<1) | (1<<4));` clears bits 0, 1 and
4 and keeps the other bits of the 8-bit register. -/
theorem testBit_disable (x j : Nat) (hx : x < 256) :
    ((x &&& bitNot16 (1 ||| 2 ||| 16)) % 256).testBit j =
      (!(decide (j = 0) || decide (j = 1) || decide (j = 4)) && x.testBit j) := by
  have h256 : (256 : Nat) = 2 ^ 8 := by norm_num
  rw [h256, Nat.testBit_mod_two_pow, Nat.testBit_and]
  by_cases hj : j < 8
  · interval_cases j <;> simp [bitNot16] <;> intro _ <;> decide
  · have := testBit_high_of_lt_256 x j hx (by omega)
    have h0 : j ≠ 0 := by omega
    simp [this]

/-- The three decimal digits that `get_digit` extracts from a natural number. -/
theorem get_digit_nat (n : Nat) :
    get_digit n ((0 : Nat) : Int) = some ((n % 10 : Nat) : Int) ∧
    get_digit n ((1 : Nat) : Int) = some ((n / 10 % 10 : Nat) : Int) ∧
    get_digit n ((2 : Nat) : Int) = some ((n / 100 % 10 : Nat) : Int) := by
  have hmod : ∀ b : Int, 0 ≤ b → Int.tmod (n : Int) b = (n : Int) % b :=
    fun b hb => Int.tmod_eq_emod (by omega) hb
  have hdiv : ∀ a b : Int, 0 ≤ a → 0 ≤ b → Int.tdiv a b = a / b :=
    fun a b ha hb => Int.tdiv_eq_ediv ha hb
  refine ⟨?_, ?_, ?_⟩
  · simp only [get_digit, power10At, power10]
    simp [hmod]
  · simp only [get_digit, power10At, power10]
    simp
    rw [hmod 100 (by omega), hdiv _ _ (by omega) (by omega)]
    omega
  · simp only [get_digit, power10At, power10]
    simp
    rw [hmod 1000 (by omega), hdiv _ _ (by omega) (by omega)]
    omega

theorem testBit_high_of_lt_65536 (x j : Nat) (hx : x < 65536) (hj : 16 ≤ j) :
    x.testBit j = false := by
  apply Nat.testBit_lt_two_pow
  calc x < 2 ^ 16 := by norm_num; exact hx
    _ ≤ 2 ^ j := Nat.pow_le_pow_right (by norm_num) hj

/-- The bits of the complement `~x` of a 16-bit value. -/
theorem testBit_bitNot16 (x j : Nat) (hx : x < 65536) :
    (bitNot16 x).testBit j = (decide (j < 16) && !x.testBit j) := by
  have h : (65535 : Nat) = 2 ^ 16 - 1 := by norm_num
  unfold bitNot16
  rw [Nat.testBit_xor, h, Nat.testBit_two_pow_sub_one]
  by_cases hj : j < 16
  · simp [hj]
  · have := testBit_high_of_lt_65536 x j hx (by omega)
    simp [hj, this]

/-- With `p0 < p1 < p2 < p3 ≤ 7` the four lowest set bits of `mapper`,
`mapping4b` returns a byte whose set bits are all set in `mapper`. -/
theorem mapping4b_subset (bits mapper p0 p1 p2 p3 : Nat)
    (h01 : p0 < p1) (h12 : p1 < p2) (h23 : p2 < p3) (h3 : p3 ≤ 7)
    (hs0 : mapper.testBit p0 = true) (hs1 : mapper.testBit p1 = true)
    (hs2 : mapper.testBit p2 = true) (hs3 : mapper.testBit p3 = true)
    (hlow : ∀ j, j < p3 → mapper.testBit j = true → j = p0 ∨ j = p1 ∨ j = p2) :
    ∃ m, mapping4b bits mapper = some m ∧
      ∀ j, m.testBit j = true → mapper.testBit j = true := by
  obtain ⟨o, ho, hbit⟩ :=
    mapLoop_four bits mapper p0 p1 p2 p3 h01 h12 h23 h3 hs0 hs1 hs2 hs3 hlow
  refine ⟨o % 256, by simp [mapping4b, ho], ?_⟩
  intro j hj
  have h256 : (256 : Nat) = 2 ^ 8 := by norm_num
  rw [h256, Nat.testBit_mod_two_pow, hbit j] at hj
  simp only [Bool.and_eq_true, Bool.or_eq_true, decide_eq_true_eq] at hj
  rcases hj with ⟨_, (((h | h) | h) | h)⟩
  · rw [← h.2]; exact hs0
  · rw [← h.2]; exact hs1
  · rw [← h.2]; exact hs2
  · rw [← h.2]; exact hs3

/-- The bits of the value `display7seg` leaves in `*port`. -/
theorem display7seg_testBit (digit port adr m : Nat) (hadr : adr < 65536)
    (hm : mapping4b digit adr = some m) :
    ∃ r, display7seg digit port adr = some r ∧
      ∀ j, r.testBit j =
        ((port.testBit j && (decide (j < 16) && !adr.testBit j)) || m.testBit j) := by
  simp only [display7seg, hm]
  refine ⟨_, rfl, fun j => ?_⟩
  rw [Nat.testBit_or, Nat.testBit_and, testBit_bitNot16 _ _ hadr]

/-- The recorded loop computes the same `out` as `mapLoop`. -/
theorem mapLoopTrace_out (bits mapper : Nat) :
    ∀ (r i it out : Nat) (stops : List Nat),
      (mapLoopTrace bits mapper r i it out stops).map (fun t => t.1) =
        mapLoop bits mapper r i it out := by
  intro r
  induction r with
  | zero => intro i it out stops; simp [mapLoopTrace, mapLoop]
  | succ r ih =>
    intro i it out stops
    rw [mapLoopTrace, mapLoop]
    by_cases hit : it < 8
    · simp only [hit, if_true]
      cases hf : findOne mapper (16 - it) it with
      | none => simp
      | some it1 => simp only [ih]
    · simp [hit]

theorem mapLoopTrace_step (bits mapper r i it out p : Nat) (stops : List Nat)
    (hit : it < 8) (hf : findOne mapper (16 - it) it = some p) :
    mapLoopTrace bits mapper (r + 1) i it out stops =
      mapLoopTrace bits mapper r (i + 1) (p + 1)
        (if bits &&& (1 <<< i) ≠ 0 then out ||| (1 <<< p) else out) (stops ++ [p]) := by
  rw [mapLoopTrace]
  simp only [hit, if_true, hf]

/-- A scan that returns stops at a set bit at or after its starting position. -/
theorem findOne_some (mapper : Nat) :
    ∀ (k it p : Nat), findOne mapper k it = some p →
      it ≤ p ∧ mapper.testBit p = true := by
  intro k
  induction k with
  | zero => intro it p h; simp [findOne] at h
  | succ k ih =>
    intro it p h
    rw [findOne] at h
    by_cases hz : mapper &&& (1 <<< it) = 0
    · simp only [hz, if_true] at h
      have := ih (it + 1) p h
      exact ⟨by omega, this.2⟩
    · simp only [hz, if_false, Option.some.injEq] at h
      subst h
      refine ⟨le_refl _, ?_⟩
      cases hb : mapper.testBit it with
      | true => rfl
      | false => exact absurd ((and_one_shiftLeft_eq_zero mapper it).mpr hb) hz

/-- The recorded loop under the hypotheses of `mapLoop_four`: four iterations,
scans stopping at `p0 .. p3`, scan index ending at `p3 + 1`. -/
theorem mapLoopTrace_four (bits mapper p0 p1 p2 p3 : Nat)
    (h01 : p0 < p1) (h12 : p1 < p2) (h23 : p2 < p3) (h3 : p3 ≤ 7)
    (hs0 : mapper.testBit p0 = true) (hs1 : mapper.testBit p1 = true)
    (hs2 : mapper.testBit p2 = true) (hs3 : mapper.testBit p3 = true)
    (hlow : ∀ j, j < p3 → mapper.testBit j = true → j = p0 ∨ j = p1 ∨ j = p2) :
    ∃ out, mapLoopTrace bits mapper 4 0 0 0 [] = some (out, p3 + 1, [p0, p1, p2, p3]) := by
  have hfalse : ∀ j, j < p3 → j ≠ p0 → j ≠ p1 → j ≠ p2 → mapper.testBit j = false := by
    intro j hj a b c
    cases hb : mapper.testBit j with
    | false => rfl
    | true => rcases hlow j hj hb with h | h | h <;> contradiction
  have f0 : findOne mapper (16 - 0) 0 = some p0 :=
    findOne_eq mapper _ 0 p0 (by omega) (by omega) hs0
      (fun j _ hj => hfalse j (by omega) (by omega) (by omega) (by omega))
  have f1 : findOne mapper (16 - (p0 + 1)) (p0 + 1) = some p1 :=
    findOne_eq mapper _ _ p1 (by omega) (by omega) hs1
      (fun j _ hj => hfalse j (by omega) (by omega) (by omega) (by omega))
  have f2 : findOne mapper (16 - (p1 + 1)) (p1 + 1) = some p2 :=
    findOne_eq mapper _ _ p2 (by omega) (by omega) hs2
      (fun j _ hj => hfalse j (by omega) (by omega) (by omega) (by omega))
  have f3 : findOne mapper (16 - (p2 + 1)) (p2 + 1) = some p3 :=
    findOne_eq mapper _ _ p3 (by omega) (by omega) hs3
      (fun j _ hj => hfalse j (by omega) (by omega) (by omega) (by omega))
  rw [mapLoopTrace_step bits mapper 3 0 0 0 p0 _ (by omega) f0,
    mapLoopTrace_step bits mapper 2 1 (p0 + 1) _ p1 _ (by omega) f1,
    mapLoopTrace_step bits mapper 1 2 (p1 + 1) _ p2 _ (by omega) f2,
    mapLoopTrace_step bits mapper 0 3 (p2 + 1) _ p3 _ (by omega) f3, mapLoopTrace]
  exact ⟨_, rfl⟩

/-- No scan of the mapper 0 returns. -/
theorem findOne_zero : ∀ (k it : Nat), findOne 0 k it = none := by
  intro k
  induction k with
  | zero => intro it; rfl
  | succ k ih =>
    intro it
    rw [findOne]
    simp [ih]

/-! ## Claims -/

/-- C1: for every `n` in `[0,255]` and every `pos` in `{0,1,2}`,
`get_digit n pos` is the base-10 digit of `n` at position `pos`, that is
`(n / 10^pos) mod 10`; for `n = 247` the digits are 7, 4 and 2. -/
theorem get_digit_base10 (n pos : Nat) (hn : n ≤ 255) (hpos : pos ≤ 2) :
    get_digit n pos = some (((n / 10 ^ pos % 10 : Nat) : Int)) ∧
    get_digit 247 0 = some 7 ∧ get_digit 247 1 = some 4 ∧ get_digit 247 2 = some 2 := by
  refine ⟨?_, by decide, by decide, by decide⟩
  have hmod : ∀ b : Int, 0 ≤ b → Int.tmod (n : Int) b = (n : Int) % b :=
    fun b hb => Int.tmod_eq_emod (by omega) hb
  have hdiv : ∀ a b : Int, 0 ≤ a → 0 ≤ b → Int.tdiv a b = a / b :=
    fun a b ha hb => Int.tdiv_eq_ediv ha hb
  interval_cases pos
  · simp only [get_digit, power10At, power10]
    simp [hmod]
  · simp only [get_digit, power10At, power10]
    simp
    rw [hmod 100 (by omega), hdiv _ _ (by omega) (by omega)]
    omega
  · simp only [get_digit, power10At, power10]
    simp
    rw [hmod 1000 (by omega), hdiv _ _ (by omega) (by omega)]
    omega

/-- Witness for C1 at `n = 247`, `pos = 1`. -/
theorem get_digit_base10_witness :
    get_digit ((247 : Nat) : Int) ((1 : Nat) : Int) = some (((247 / 10 ^ 1 % 10 : Nat) : Int)) :=
  (get_digit_base10 247 1 (by decide) (by decide)).1

/-- C2: when `p0 < p1 < p2 < p3` are the four lowest set bit positions of
`mapper`, all among positions 0..7, `mapping4b bits mapper` returns the byte in
which bit `p_i` is set exactly when bit `i` of `bits` is set (`i = 0..3`) and
every other bit is clear; the bits of `bits` above bit 3 have no influence. -/
theorem mapping4b_scatter (bits mapper p0 p1 p2 p3 : Nat)
    (h01 : p0 < p1) (h12 : p1 < p2) (h23 : p2 < p3) (h3 : p3 ≤ 7)
    (hs0 : mapper.testBit p0 = true) (hs1 : mapper.testBit p1 = true)
    (hs2 : mapper.testBit p2 = true) (hs3 : mapper.testBit p3 = true)
    (hlow : ∀ j, j < p3 → mapper.testBit j = true → j = p0 ∨ j = p1 ∨ j = p2) :
    ∃ out, mapping4b bits mapper = some out ∧ out < 256 ∧
      (∀ j, out.testBit j = true ↔
        (j = p0 ∧ bits.testBit 0 = true) ∨ (j = p1 ∧ bits.testBit 1 = true) ∨
        (j = p2 ∧ bits.testBit 2 = true) ∨ (j = p3 ∧ bits.testBit 3 = true)) ∧
      (∀ other, (∀ i, i < 4 → other.testBit i = bits.testBit i) →
        mapping4b other mapper = some out) := by
  obtain ⟨o, ho, hbit⟩ :=
    mapLoop_four bits mapper p0 p1 p2 p3 h01 h12 h23 h3 hs0 hs1 hs2 hs3 hlow
  have hchar : ∀ j, (o % 256).testBit j = true ↔
        (j = p0 ∧ bits.testBit 0 = true) ∨ (j = p1 ∧ bits.testBit 1 = true) ∨
        (j = p2 ∧ bits.testBit 2 = true) ∨ (j = p3 ∧ bits.testBit 3 = true) := by
    intro j
    have h256 : (256 : Nat) = 2 ^ 8 := by norm_num
    rw [h256, Nat.testBit_mod_two_pow, hbit j]
    simp only [Bool.and_eq_true, Bool.or_eq_true, decide_eq_true_eq]
    constructor
    · rintro ⟨_, (((h | h) | h) | h)⟩
      · exact Or.inl ⟨h.2.symm, h.1⟩
      · exact Or.inr (Or.inl ⟨h.2.symm, h.1⟩)
      · exact Or.inr (Or.inr (Or.inl ⟨h.2.symm, h.1⟩))
      · exact Or.inr (Or.inr (Or.inr ⟨h.2.symm, h.1⟩))
    · rintro (h | h | h | h)
      · exact ⟨by omega, Or.inl (Or.inl (Or.inl ⟨h.2, h.1.symm⟩))⟩
      · exact ⟨by omega, Or.inl (Or.inl (Or.inr ⟨h.2, h.1.symm⟩))⟩
      · exact ⟨by omega, Or.inl (Or.inr ⟨h.2, h.1.symm⟩)⟩
      · exact ⟨by omega, Or.inr ⟨h.2, h.1.symm⟩⟩
  refine ⟨o % 256, by simp [mapping4b, ho], Nat.mod_lt _ (by norm_num), hchar, ?_⟩
  intro other hsame
  obtain ⟨o2, ho2, hbit2⟩ :=
    mapLoop_four other mapper p0 p1 p2 p3 h01 h12 h23 h3 hs0 hs1 hs2 hs3 hlow
  have : o2 = o := by
    apply Nat.eq_of_testBit_eq
    intro j
    rw [hbit2 j, hbit j, hsame 0 (by omega), hsame 1 (by omega), hsame 2 (by omega),
      hsame 3 (by omega)]
  simp [mapping4b, ho2, this]

/-- Witness for C2: the mapper `0b01000111` used by `main` has its four lowest
set bits at positions 0, 1, 2 and 6. -/
theorem mapping4b_scatter_witness :
    ∃ out, mapping4b 9 0b01000111 = some out ∧ out < 256 ∧
      (∀ j, out.testBit j = true ↔
        (j = 0 ∧ Nat.testBit 9 0 = true) ∨ (j = 1 ∧ Nat.testBit 9 1 = true) ∨
        (j = 2 ∧ Nat.testBit 9 2 = true) ∨ (j = 6 ∧ Nat.testBit 9 3 = true)) ∧
      (∀ other, (∀ i, i < 4 → other.testBit i = Nat.testBit 9 i) →
        mapping4b other 0b01000111 = some out) :=
  mapping4b_scatter 9 0b01000111 0 1 2 6 (by decide) (by decide) (by decide) (by decide)
    (by decide) (by decide) (by decide) (by decide)
    (by
      intro j hj
      interval_cases j <;> simp <;> decide)

/-- C3: with the identity mapper `0b00001111`, `mapping4b` returns every digit
in `[0,15]` unchanged. -/
theorem mapping4b_identity (digit : Nat) (h : digit ≤ 15) :
    mapping4b digit 0b00001111 = some digit := by
  interval_cases digit <;> decide

/-- Witness for C3 at `digit = 9`. -/
theorem mapping4b_identity_witness : mapping4b 9 0b00001111 = some 9 :=
  mapping4b_identity 9 (by decide)

/-- C4: the acquisition state starts at TEMP (0); each firing of the ADC
handler moves it to its cyclic successor (0 to 1, 1 to 2, 2 to 0) whatever the
raw reading; after `k` firings it is `k mod 3`, hence always one of the three
values, and a firing never repeats the state nor skips one. -/
theorem ADC_cycle (pf : Target) :
    init.current = 0 ∧
    (∀ (s : State) (raw : Nat), s.current = 0 → (ADC_vect pf s raw).current = 1) ∧
    (∀ (s : State) (raw : Nat), s.current = 1 → (ADC_vect pf s raw).current = 2) ∧
    (∀ (s : State) (raw : Nat), s.current = 2 → (ADC_vect pf s raw).current = 0) ∧
    (∀ raws : List Nat, (ADC_run pf init raws).current = raws.length % 3) ∧
    (∀ raws : List Nat, (ADC_run pf init raws).current < 3) ∧
    (∀ (raws : List Nat) (raw : Nat),
      (ADC_run pf init (raws ++ [raw])).current
        = ((ADC_run pf init raws).current + 1) % 3 ∧
      (ADC_run pf init (raws ++ [raw])).current ≠ (ADC_run pf init raws).current) := by
  have hrun : ∀ raws : List Nat, (ADC_run pf init raws).current = raws.length % 3 := by
    intro raws
    have := ADC_run_current pf raws init (by decide)
    simpa [init] using this
  refine ⟨rfl, ?_, ?_, ?_, hrun, ?_, ?_⟩
  · intro s raw h; simp [ADC_vect, h]
  · intro s raw h; simp [ADC_vect, h]
  · intro s raw h; simp [ADC_vect, h]
  · intro raws; rw [hrun]; omega
  · intro raws raw
    have h1 := hrun (raws ++ [raw])
    have h2 := hrun raws
    rw [List.length_append, List.length_singleton] at h1
    constructor <;> omega

/-- Witness for C4: a firing in the LIGHT state with raw reading 0. -/
theorem ADC_cycle_witness :
    (ADC_vect saturating { init with current := 2 } 0).current = 0 :=
  (ADC_cycle saturating).2.2.2.1 { init with current := 2 } 0 rfl

/-- C5: on the LIGHT step the duty written to `OCR0A` is one of 0, 125, 255:
0 when the computed `light` exceeds 500, 125 when it is in (300, 500], 255
when it is at most 300; so a larger `light` never gives a larger duty. -/
theorem backlight_duty (pf : Target) (s : State) (raw : Nat)
    (h0 : s.current ≠ 0) (h1 : s.current ≠ 1) :
    ((ADC_vect pf s raw).OCR0A = 0 ∨ (ADC_vect pf s raw).OCR0A = 125 ∨
      (ADC_vect pf s raw).OCR0A = 255) ∧
    (500 < (ADC_vect pf s raw).light → (ADC_vect pf s raw).OCR0A = 0) ∧
    (300 < (ADC_vect pf s raw).light → (ADC_vect pf s raw).light ≤ 500 →
      (ADC_vect pf s raw).OCR0A = 125) ∧
    ((ADC_vect pf s raw).light ≤ 300 → (ADC_vect pf s raw).OCR0A = 255) ∧
    (∀ (t : State) (raw2 : Nat), t.current ≠ 0 → t.current ≠ 1 →
      (ADC_vect pf s raw).light ≤ (ADC_vect pf t raw2).light →
      (ADC_vect pf t raw2).OCR0A ≤ (ADC_vect pf s raw).OCR0A) := by
  have key : ∀ (u : State) (r : Nat), u.current ≠ 0 → u.current ≠ 1 →
      (ADC_vect pf u r).OCR0A =
        if (ADC_vect pf u r).light > 500 then 0
        else if (ADC_vect pf u r).light > 300 then 125 else 255 := by
    intro u r a b
    simp [ADC_vect, a, b]
  have hs := key s raw h0 h1
  refine ⟨?_, ?_, ?_, ?_, ?_⟩
  · rw [hs]; split_ifs <;> simp
  · intro h; rw [hs]; simp [h]
  · intro ha hb; rw [hs]
    have : ¬ (ADC_vect pf s raw).light > 500 := by omega
    simp [this, ha]
  · intro h; rw [hs]
    have a : ¬ (ADC_vect pf s raw).light > 500 := by omega
    have b : ¬ (ADC_vect pf s raw).light > 300 := by omega
    simp [a, b]
  · intro t raw2 a b hle
    rw [hs, key t raw2 a b]
    split_ifs <;> omega

/-- Witness for C5: the LIGHT step at raw reading 700. -/
theorem backlight_duty_witness :
    (ADC_vect saturating { init with current := 2 } 700).OCR0A = 0 ∨
    (ADC_vect saturating { init with current := 2 } 700).OCR0A = 125 ∨
    (ADC_vect saturating { init with current := 2 } 700).OCR0A = 255 :=
  (backlight_duty saturating { init with current := 2 } 700 (by decide) (by decide)).1

/-- C6: for every count `c` in `rot_vel` and every `deltat > 0`, `vmed deltat`
takes RPM to be the truncating integer quotient `c / deltat` and returns
`RPM * PI * 0.3 * 3.6`; with `c = 50` and `deltat = 5` the RPM is 10 and the
velocity `10 * PI * 0.3 * 3.6` lies between 33.92 and 33.94, which the
conversion for the digit display truncates to 33. -/
theorem vmed_value (s : State) (deltat : Nat) (h : 0 < deltat) :
    (∃ (RPM : Int) (s1 : State),
      RPM = Int.tdiv s.rot_vel (deltat : Int) ∧
      (0 ≤ s.rot_vel → RPM * deltat ≤ s.rot_vel ∧ s.rot_vel < (RPM + 1) * deltat) ∧
      vmed s deltat = some ((RPM : ℚ) * PI * (3 / 10) * (36 / 10), s1)) ∧
    (∃ s1 : State,
      vmed { init with rot_vel := 50 } 5 = some (10 * PI * (3 / 10) * (36 / 10), s1)) ∧
    ((3392 : ℚ) / 100 < 10 * PI * (3 / 10) * (36 / 10) ∧
      10 * PI * (3 / 10) * (36 / 10) < 3394 / 100) ∧
    (∀ pf : Target, toUInt8 pf (some (10 * PI * (3 / 10) * (36 / 10))) = 33) := by
  refine ⟨⟨Int.tdiv s.rot_vel (deltat : Int), { s with rot_vel := 0 }, rfl, ?_,
    vmed_eq s deltat h⟩, ⟨{ init with rot_vel := 0 }, ?_⟩, ?_, ?_⟩
  · intro hc
    have hd : (0 : Int) < (deltat : Int) := by exact_mod_cast h
    rw [Int.tdiv_eq_ediv hc (by omega)]
    constructor
    · exact Int.ediv_mul_le _ (by omega)
    · exact Int.lt_ediv_add_one_mul_self _ hd
  · have := vmed_eq { init with rot_vel := 50 } 5 (by decide)
    have h10 : Int.tdiv (50 : Int) ((5 : Nat) : Int) = 10 := by decide
    simp only [h10] at this
    simpa using this
  · constructor <;> norm_num [PI]
  · intro pf
    have hfl : truncQ (10 * PI * (3 / 10) * (36 / 10)) = 33 := by
      rw [truncQ_eq_floor _ (by norm_num [PI]), Int.floor_eq_iff]
      constructor <;> norm_num [PI]
    simp [toUInt8, hfl]

/-- Witness for C6: a count of 52 over 5 s gives RPM 10, not 10.4. -/
theorem vmed_value_witness :
    ∃ s1 : State,
      vmed { init with rot_vel := 52 } 5 = some ((10 : ℚ) * PI * (3 / 10) * (36 / 10), s1) := by
  obtain ⟨RPM, s1, hR, _, hv⟩ := (vmed_value { init with rot_vel := 52 } 5 (by decide)).1
  have h10 : RPM = 10 := by rw [hR]; decide
  subst h10
  exact ⟨s1, by simpa using hv⟩

/-- C7: for every prior state and every `deltat > 0`, `vmed deltat` returns,
leaving `rot_vel` at 0 and `motor_rot`, `time_ms`, `temp`, `cell`, `light` (and
the rest of the state) unchanged. -/
theorem vmed_frame (s : State) (deltat : Nat) (h : 0 < deltat) :
    ∃ (v : ℚ) (s1 : State), vmed s deltat = some (v, s1) ∧
      s1.rot_vel = 0 ∧ s1.motor_rot = s.motor_rot ∧ s1.time_ms = s.time_ms ∧
      s1.temp = s.temp ∧ s1.cell = s.cell ∧ s1.light = s.light ∧
      s1 = { s with rot_vel := 0 } := by
  exact ⟨_, { s with rot_vel := 0 }, vmed_eq s deltat h, rfl, rfl, rfl, rfl, rfl, rfl, rfl⟩

/-- Witness for C7: a window count of 50 and `deltat = 5`. -/
theorem vmed_frame_witness :
    ∃ (v : ℚ) (s1 : State), vmed { init with rot_vel := 50, motor_rot := 7 } 5 = some (v, s1) ∧
      s1.rot_vel = 0 ∧ s1.motor_rot = 7 :=
  let ⟨v, s1, hv, h0, h1, _⟩ :=
    vmed_frame { init with rot_vel := 50, motor_rot := 7 } 5 (by decide)
  ⟨v, s1, hv, h0, h1⟩

/-- C8: a soft timer with period 1000, 2000 or 5000 fires on a loop pass
exactly when `now - lastFired`, taken modulo `2^32`, is strictly greater than
the period; when it fires `lastFired` becomes `now` (and otherwise keeps its
value), so a check repeated at the same clock value does not fire.  With
`lastFired = 0` the 1 s timer does not fire at `now = 1000` and fires at
`now = 1001`, leaving `lastFired = 1001`. -/
theorem soft_timer_fires (pf : Target) (s : State) :
    (∀ now last P : Nat,
      elapsed now last P = true ↔ (P : Int) < ((now : Int) - (last : Int)) % 4294967296) ∧
    (∃ s1, loopPass pf s = some s1 ∧
      s1.time_1000ms =
        (if (1000 : Int) < ((s.time_ms : Int) - (s.time_1000ms : Int)) % 4294967296
          then s.time_ms else s.time_1000ms) ∧
      s1.motor_rot =
        (if (1000 : Int) < ((s.time_ms : Int) - (s.time_1000ms : Int)) % 4294967296
          then 0 else s.motor_rot) ∧
      s1.time_2000ms =
        (if (2000 : Int) < ((s.time_ms : Int) - (s.time_2000ms : Int)) % 4294967296
          then s.time_ms else s.time_2000ms) ∧
      s1.time_5000ms =
        (if (5000 : Int) < ((s.time_ms : Int) - (s.time_5000ms : Int)) % 4294967296
          then s.time_ms else s.time_5000ms) ∧
      s1.rot_vel =
        (if (5000 : Int) < ((s.time_ms : Int) - (s.time_5000ms : Int)) % 4294967296
          then 0 else s.rot_vel) ∧
      s1.time_ms = s.time_ms ∧
      elapsed s1.time_ms s1.time_1000ms 1000 = false ∧
      elapsed s1.time_ms s1.time_2000ms 2000 = false ∧
      elapsed s1.time_ms s1.time_5000ms 5000 = false) ∧
    (∃ s1, loopPass pf { init with time_ms := 1000 } = some s1 ∧ s1.time_1000ms = 0) ∧
    (∃ s1, loopPass pf { init with time_ms := 1001 } = some s1 ∧ s1.time_1000ms = 1001 ∧
      elapsed s1.time_ms s1.time_1000ms 1000 = false) := by
  have after : ∀ now last P : Nat,
      elapsed now (if elapsed now last P then now else last) P = false := by
    intro now last P
    by_cases h : elapsed now last P = true
    · simp [h, elapsed_self]
    · simp [h]
  refine ⟨elapsed_iff, ?_, ?_, ?_⟩
  · obtain ⟨s1, hs1, ht, h1, h2, h5, hm, hr, _⟩ := loopPass_fields pf s
    refine ⟨s1, hs1, ?_, ?_, ?_, ?_, ?_, ht, ?_, ?_, ?_⟩
    · rw [h1]; simp [elapsed_iff]
    · rw [hm]; simp [elapsed_iff]
    · rw [h2]; simp [elapsed_iff]
    · rw [h5]; simp [elapsed_iff]
    · rw [hr]; simp [elapsed_iff]
    · rw [ht, h1]; exact after _ _ _
    · rw [ht, h2]; exact after _ _ _
    · rw [ht, h5]; exact after _ _ _
  · obtain ⟨s1, hs1, _, h1, _⟩ := loopPass_fields pf { init with time_ms := 1000 }
    refine ⟨s1, hs1, ?_⟩
    rw [h1]
    have : elapsed 1000 0 1000 = false := by decide
    simp [init, this]
  · obtain ⟨s1, hs1, ht, h1, _⟩ := loopPass_fields pf { init with time_ms := 1001 }
    have hfire : elapsed 1001 0 1000 = true := by decide
    have h1001 : s1.time_1000ms = 1001 := by
      rw [h1]; simp [init, hfire]
    refine ⟨s1, hs1, h1001, ?_⟩
    rw [h1001, ht]
    exact elapsed_self _ _

/-- C9: in a loop pass, if the 2 s timer fires then afterwards bit 0 of `PORTB`
is set exactly when `temp > 80` and the other bits of `PORTB` are unchanged; if
the 2 s timer does not fire, `PORTB` is unchanged whatever `temp` is. -/
theorem overheat_indicator (pf : Target) (s : State) (hB : s.PORTB < 256) :
    ∃ s1, loopPass pf s = some s1 ∧
      (elapsed s.time_ms s.time_2000ms 2000 = true →
        (s1.PORTB.testBit 0 = true ↔ 80 < s.temp) ∧
        (∀ j, j ≠ 0 → s1.PORTB.testBit j = s.PORTB.testBit j)) ∧
      (elapsed s.time_ms s.time_2000ms 2000 = false → s1.PORTB = s.PORTB) := by
  obtain ⟨s1, hs1, _, _, _, _, _, _, hp⟩ := loopPass_fields pf s
  refine ⟨s1, hs1, ?_, ?_⟩
  · intro he
    rw [hp]
    simp only [he, if_true]
    by_cases ht : s.temp > 80
    · simp only [ht, if_true, testBit_or_one]
      refine ⟨by simp [ht], fun j hj => by simp [hj]⟩
    · simp only [ht, if_false, testBit_and_not_one _ _ hB]
      refine ⟨by simp, fun j hj => by simp [hj]⟩
  · intro he
    rw [hp]
    simp [he]

/-- Witness for C9: the 2 s timer fires at clock 2001 with `temp = 81`. -/
theorem overheat_indicator_witness :
    ∃ s1, loopPass saturating { init with time_ms := 2001, temp := 81 } = some s1 ∧
      s1.PORTB.testBit 0 = true := by
  obtain ⟨s1, hs1, hfire, _⟩ :=
    overheat_indicator saturating { init with time_ms := 2001, temp := 81 } (by decide)
  exact ⟨s1, hs1, ((hfire (by decide)).1).mpr (by decide)⟩

/-- C10, as stated, fails: in the LIGHT state a raw reading of 0 is divided
into.  The quotient is not finite, the stored `light` is what the target's
conversion returns for it, and the duty follows that value (0 on a saturating
target, 255 on one returning the lowest integer), so no fixed clamp is
applied. -/
theorem light_zero_not_clamped :
    fdiv 1023000 (((0 : Nat) : ℚ)) = none ∧
    (ADC_vect saturating { init with current := 2 } 0).light = 2147483647 ∧
    (ADC_vect saturating { init with current := 2 } 0).OCR0A = 0 ∧
    (ADC_vect lowest { init with current := 2 } 0).OCR0A = 255 ∧
    ¬ ∃ d : Nat, ∀ pf : Target, (ADC_vect pf { init with current := 2 } 0).OCR0A = d := by
  have hz : fdiv 1023000 (((0 : Nat) : ℚ)) = none := by simp [fdiv]
  have hsat : (ADC_vect saturating { init with current := 2 } 0).light = 2147483647 := by
    simp [ADC_vect, fdiv, toInt32, saturating, wrapInt32]
  have hsatd : (ADC_vect saturating { init with current := 2 } 0).OCR0A = 0 := by
    simp [ADC_vect, fdiv, toInt32, saturating, wrapInt32]
  have hlow : (ADC_vect lowest { init with current := 2 } 0).OCR0A = 255 := by
    simp [ADC_vect, fdiv, toInt32, lowest, wrapInt32]
  refine ⟨hz, hsat, hsatd, hlow, ?_⟩
  rintro ⟨d, hd⟩
  have a := hd saturating
  have b := hd lowest
  rw [hsatd] at a
  rw [hlow] at b
  omega

/-- C10, amended: the LIGHT step has no guard on the raw reading and divides
into it in every case.  For a raw reading in `[1,1023]` the quotient is finite
and `light` is `1023000 / raw - 1000` truncated; for a raw reading of 0 the
quotient is not finite and `light` is what the target's conversion returns for
it.  In both cases the duty follows from `light` by the two thresholds. -/
theorem light_step_unguarded (pf : Target) (s : State) (raw : Nat)
    (h0 : s.current ≠ 0) (h1 : s.current ≠ 1) :
    (raw = 0 → fdiv 1023000 (raw : ℚ) = none ∧
      (ADC_vect pf s raw).light = wrapInt32 (pf.fix32 none)) ∧
    (1 ≤ raw → raw ≤ 1023 →
      fdiv 1023000 (raw : ℚ) = some (1023000 / (raw : ℚ)) ∧
      (ADC_vect pf s raw).light = ((1023000 / raw : Nat) : Int) - 1000) ∧
    (ADC_vect pf s raw).OCR0A =
      (if (ADC_vect pf s raw).light > 500 then 0
       else if (ADC_vect pf s raw).light > 300 then 125 else 255) := by
  refine ⟨?_, ?_, by simp [ADC_vect, h0, h1]⟩
  · intro hr
    subst hr
    simp [ADC_vect, h0, h1, fdiv, toInt32]
  · intro ha hb
    have hne : (raw : ℚ) ≠ 0 := by
      have : (0 : ℚ) < raw := by exact_mod_cast ha
      exact ne_of_gt this
    refine ⟨by simp [fdiv, hne], ?_⟩
    have := light_value pf raw ha hb
    simp only [ADC_vect, h0, h1, if_false]
    exact this

/-- Witness for the amended C10: the LIGHT step at raw reading 1023 stores
`light = 0`. -/
theorem light_step_unguarded_witness :
    (ADC_vect saturating { init with current := 2 } 1023).light = 0 := by
  have h := ((light_step_unguarded saturating { init with current := 2 } 1023
    (by decide) (by decide)).2.1 (by decide) (by decide)).2
  rw [h]
  decide

/-- C11, as stated, fails: there is no `lastFired` and no true elapsed time
`e < 2^32` across a wrap of `time_ms` for which the test computed by the code
differs from `e > period`. -/
theorem soft_timer_no_wrap_failure :
    ¬ ∃ (last e P : Nat), last < 4294967296 ∧ e < 4294967296 ∧
        4294967296 ≤ last + e ∧
        elapsed ((last + e) % 4294967296) last P ≠ decide (P < e) := by
  rintro ⟨last, e, P, hl, he, _, hne⟩
  exact hne (elapsed_after last e P hl he)

/-- C11, amended: the soft-timer test is robust to a wrap of the 32-bit
millisecond counter.  For every `lastFired` and every true elapsed time
`e < 2^32` ms, counted in clock ticks and whether or not `time_ms` wraps in
between, the test computed by the code is exactly `e > period`. -/
theorem soft_timer_wrap_robust (s : State) (e P : Nat)
    (hs : s.time_ms < 4294967296) (he : e < 4294967296) :
    (ticks e s).time_ms = (s.time_ms + e) % 4294967296 ∧
    elapsed (ticks e s).time_ms s.time_ms P = decide (P < e) := by
  have ht := ticks_time_ms e s hs
  exact ⟨ht, by rw [ht]; exact elapsed_after _ _ _ hs he⟩

/-- Witness for the amended C11: 1001 ticks after firing at `2^32 - 1`, across
the wrap, the 1 s timer test holds. -/
theorem soft_timer_wrap_robust_witness :
    elapsed (ticks 1001 { init with time_ms := 4294967295 }).time_ms 4294967295 1000
      = decide (1000 < 1001) :=
  (soft_timer_wrap_robust { init with time_ms := 4294967295 } 1001 1000
    (by decide) (by decide)).2

/-- C12: on the CELL step, for every raw reading in `[0,1023]`, `cell` becomes
`raw / 1023 * 100` truncated, that is `floor (100 * raw / 1023)`; it lies in
`[0,100]`, is non-decreasing in the raw reading, and is 100 only for
`raw = 1023`. -/
theorem cell_percentage (pf : Target) (s : State) (raw : Nat)
    (hc : s.current = 1) (hr : raw ≤ 1023) :
    (ADC_vect pf s raw).cell = truncQ ((raw : ℚ) / 1023 * 100) ∧
    (ADC_vect pf s raw).cell = ((100 * raw / 1023 : Nat) : Int) ∧
    0 ≤ (ADC_vect pf s raw).cell ∧ (ADC_vect pf s raw).cell ≤ 100 ∧
    ((ADC_vect pf s raw).cell = 100 ↔ raw = 1023) ∧
    (∀ (t : State) (raw2 : Nat), t.current = 1 → raw ≤ raw2 → raw2 ≤ 1023 →
      (ADC_vect pf s raw).cell ≤ (ADC_vect pf t raw2).cell) := by
  have key : ∀ (u : State) (r : Nat), u.current = 1 → r ≤ 1023 →
      (ADC_vect pf u r).cell = ((100 * r / 1023 : Nat) : Int) := by
    intro u r hu hle
    simp only [ADC_vect, hu]
    exact cell_value pf r hle
  have hs := key s raw hc hr
  have hle : 100 * raw / 1023 ≤ 100 := by
    rw [Nat.div_le_iff_le_mul_add_pred (by norm_num)]
    omega
  refine ⟨by rw [hs, truncQ_cell], hs, by rw [hs]; omega, by rw [hs]; omega, ?_, ?_⟩
  · rw [hs]
    have h100 : 100 ≤ 100 * raw / 1023 ↔ 100 * 1023 ≤ 100 * raw :=
      Nat.le_div_iff_mul_le (by norm_num)
    omega
  · intro t raw2 ht h12 h2
    rw [hs, key t raw2 ht h2]
    have : 100 * raw / 1023 ≤ 100 * raw2 / 1023 := Nat.div_le_div_right (by omega)
    omega

/-- Witness for C12: the CELL step at raw reading 512 stores 50. -/
theorem cell_percentage_witness :
    (ADC_vect saturating { init with current := 1 } 512).cell = 50 := by
  have h := (cell_percentage saturating { init with current := 1 } 512
    (by decide) (by decide)).2.1
  rw [h]
  decide

/-- C13: on the LIGHT step, for every raw reading in `[1,1023]`, `light`
becomes `1023000 / raw - 1000` truncated to an integer; the result is
non-negative, non-increasing in the raw reading, and 0 at `raw = 1023`. -/
theorem light_formula (pf : Target) (s : State) (raw : Nat)
    (hc : s.current = 2) (h1 : 1 ≤ raw) (h2 : raw ≤ 1023) :
    (ADC_vect pf s raw).light = truncQ ((1023000 : ℚ) / raw - 1000) ∧
    (ADC_vect pf s raw).light = ((1023000 / raw : Nat) : Int) - 1000 ∧
    0 ≤ (ADC_vect pf s raw).light ∧
    (∀ (t : State) (raw2 : Nat), t.current = 2 → raw ≤ raw2 → raw2 ≤ 1023 →
      (ADC_vect pf t raw2).light ≤ (ADC_vect pf s raw).light) ∧
    (ADC_vect pf s 1023).light = 0 := by
  have hs := (ADC_vect_light pf s raw hc h1 h2).1
  have hge : 1000 ≤ 1023000 / raw := by
    rw [Nat.le_div_iff_mul_le (by omega)]
    omega
  refine ⟨by rw [hs, truncQ_light raw h1 h2], hs, by rw [hs]; omega, ?_, ?_⟩
  · intro t raw2 ht h12 hr2
    rw [hs, (ADC_vect_light pf t raw2 ht (by omega) hr2).1]
    have : 1023000 / raw2 ≤ 1023000 / raw := Nat.div_le_div_left h12 (by omega)
    omega
  · rw [(ADC_vect_light pf s 1023 hc (by decide) (by decide)).1]
    decide

/-- Witness for C13: the LIGHT step at raw reading 700 stores 461. -/
theorem light_formula_witness :
    (ADC_vect saturating { init with current := 2 } 700).light = 461 := by
  have h := (light_formula saturating { init with current := 2 } 700
    (by decide) (by decide) (by decide)).2.1
  rw [h]
  decide

/-- C14: each firing of the ADC handler writes one of the three sensor fields
and leaves the other two unchanged: the TEMP step writes `temp`, the CELL step
writes `cell`, the LIGHT step writes `light`, and `OCR0A` is written on the
LIGHT step only.  Over three consecutive firings each field is therefore
written by exactly one firing and untouched by the other two. -/
theorem ADC_writes_one_field (pf : Target) (s : State) (raw : Nat) :
    (s.current = 0 →
      (ADC_vect pf s raw).temp =
        toInt32 pf (some ((191 / 2 * (raw : ℚ) + 20) * (11 / 10) / 1023)) ∧
      (ADC_vect pf s raw).cell = s.cell ∧ (ADC_vect pf s raw).light = s.light ∧
      (ADC_vect pf s raw).OCR0A = s.OCR0A) ∧
    (s.current = 1 →
      (ADC_vect pf s raw).cell = toInt32 pf (some ((raw : ℚ) / 1023 * 100)) ∧
      (ADC_vect pf s raw).temp = s.temp ∧ (ADC_vect pf s raw).light = s.light ∧
      (ADC_vect pf s raw).OCR0A = s.OCR0A) ∧
    (s.current = 2 →
      (ADC_vect pf s raw).light =
        toInt32 pf ((fdiv 1023000 (raw : ℚ)).map (fun q => q - 1000)) ∧
      (ADC_vect pf s raw).temp = s.temp ∧ (ADC_vect pf s raw).cell = s.cell ∧
      (ADC_vect pf s raw).OCR0A =
        (if (ADC_vect pf s raw).light > 500 then 0
         else if (ADC_vect pf s raw).light > 300 then 125 else 255)) ∧
    (∀ r2 r3 : Nat, s.current = 0 →
      (ADC_run pf s [raw, r2, r3]).temp = (ADC_vect pf s raw).temp ∧
      (ADC_run pf s [raw, r2, r3]).cell = (ADC_vect pf (ADC_vect pf s raw) r2).cell ∧
      (ADC_vect pf s raw).cell = s.cell ∧
      (ADC_vect pf (ADC_vect pf s raw) r2).light = s.light ∧
      (ADC_run pf s [raw, r2, r3]).current = 0) ∧
    (∀ r2 r3 : Nat, s.current = 1 →
      (ADC_run pf s [raw, r2, r3]).cell = (ADC_vect pf s raw).cell ∧
      (ADC_run pf s [raw, r2, r3]).light = (ADC_vect pf (ADC_vect pf s raw) r2).light ∧
      (ADC_vect pf s raw).light = s.light ∧
      (ADC_vect pf (ADC_vect pf s raw) r2).temp = s.temp ∧
      (ADC_run pf s [raw, r2, r3]).current = 1) ∧
    (∀ r2 r3 : Nat, s.current = 2 →
      (ADC_run pf s [raw, r2, r3]).light = (ADC_vect pf s raw).light ∧
      (ADC_run pf s [raw, r2, r3]).temp = (ADC_vect pf (ADC_vect pf s raw) r2).temp ∧
      (ADC_vect pf s raw).temp = s.temp ∧
      (ADC_vect pf (ADC_vect pf s raw) r2).cell = s.cell ∧
      (ADC_run pf s [raw, r2, r3]).current = 2) := by
  refine ⟨?_, ?_, ?_, ?_, ?_, ?_⟩
  · intro h; simp [ADC_vect, h]
  · intro h; simp [ADC_vect, h]
  · intro h; simp [ADC_vect, h]
  · intro r2 r3 h; simp [ADC_run, ADC_vect, h]
  · intro r2 r3 h; simp [ADC_run, ADC_vect, h]
  · intro r2 r3 h; simp [ADC_run, ADC_vect, h]

/-- Witness for C14: a TEMP step from the initial state leaves `cell` at 0. -/
theorem ADC_writes_one_field_witness : (ADC_vect saturating init 300).cell = init.cell :=
  ((ADC_writes_one_field saturating init 300).1 rfl).2.1

/-- C15, as stated, fails: the body of the 1 s timer resets `motor_rot`.  At
clock 1001 with `time_1000ms = 0` and `motor_rot = 7` it leaves `motor_rot = 0`. -/
theorem timer1000_resets_motor_rot :
    (timer1000 { init with time_ms := 1001, motor_rot := 7 }).motor_rot = 0 ∧
    (timer1000 { init with time_ms := 1001, motor_rot := 7 }).motor_rot ≠
      ({ init with time_ms := 1001, motor_rot := 7 } : State).motor_rot := by
  have hfire : elapsed 1001 0 1000 = true := by decide
  have h0 : (timer1000 { init with time_ms := 1001, motor_rot := 7 }).motor_rot = 0 := by
    simp [timer1000, init, hfire]
  refine ⟨h0, ?_⟩
  rw [h0]
  decide

/-- C15, amended: each INT0 firing increments `motor_rot` and `rot_vel` by
exactly 1 (for counters below the `int` maximum 32767) and no other handler
writes them.  In the main loop `rot_vel` is reset only by the call to `vmed`
in the 5 s timer and `motor_rot` is reset only by the body of the 1 s timer;
the digit multiplexing and the 2 s body leave both unchanged, the 1 s body
leaves `rot_vel` unchanged and the 5 s body leaves `motor_rot` unchanged. -/
theorem rotation_counters (pf : Target) (s : State) :
    (-32768 ≤ s.motor_rot → s.motor_rot < 32767 →
      (INT0_vect s).motor_rot = s.motor_rot + 1) ∧
    (-32768 ≤ s.rot_vel → s.rot_vel < 32767 →
      (INT0_vect s).rot_vel = s.rot_vel + 1) ∧
    ((TIMER1_COMPA_vect s).motor_rot = s.motor_rot ∧
      (TIMER1_COMPA_vect s).rot_vel = s.rot_vel) ∧
    ((INT1_vect s).motor_rot = s.motor_rot ∧ (INT1_vect s).rot_vel = s.rot_vel) ∧
    (∀ raw : Nat, (ADC_vect pf s raw).motor_rot = s.motor_rot ∧
      (ADC_vect pf s raw).rot_vel = s.rot_vel) ∧
    (∃ s1, digitLoop s = some s1 ∧ s1.motor_rot = s.motor_rot ∧ s1.rot_vel = s.rot_vel) ∧
    ((timer1000 s).rot_vel = s.rot_vel ∧
      (timer1000 s).motor_rot =
        (if elapsed s.time_ms s.time_1000ms 1000 then 0 else s.motor_rot)) ∧
    ((timer2000 s).motor_rot = s.motor_rot ∧ (timer2000 s).rot_vel = s.rot_vel) ∧
    (∃ s1, timer5000 pf s = some s1 ∧ s1.motor_rot = s.motor_rot ∧
      s1.rot_vel = (if elapsed s.time_ms s.time_5000ms 5000 then 0 else s.rot_vel)) := by
  refine ⟨?_, ?_, ⟨rfl, rfl⟩, ⟨rfl, rfl⟩, ?_, ?_, ?_, ?_, ?_⟩
  · intro h1 h2
    simp only [INT0_vect, wrapInt16]
    omega
  · intro h1 h2
    simp only [INT0_vect, wrapInt16]
    omega
  · intro raw
    simp only [ADC_vect]
    split_ifs <;> exact ⟨rfl, rfl⟩
  · obtain ⟨pd, pc, h⟩ := digitLoop_frame s
    exact ⟨_, h, rfl, rfl⟩
  · simp only [timer1000]
    split_ifs <;> exact ⟨rfl, rfl⟩
  · simp only [timer2000]
    split_ifs <;> exact ⟨rfl, rfl⟩
  · obtain ⟨dn, sv, h⟩ := timer5000_eq pf s
    refine ⟨_, h, ?_, ?_⟩ <;> split_ifs <;> rfl

/-- Witness for the amended C15: an INT0 firing with both counters at 41. -/
theorem rotation_counters_witness :
    (INT0_vect { init with motor_rot := 41, rot_vel := 41 }).motor_rot = 41 + 1 :=
  (rotation_counters saturating { init with motor_rot := 41, rot_vel := 41 }).1
    (by decide) (by decide)

/-- C16: during digit multiplexing, for every prior value of `PORTD` and every
position `p` in `{0,1,2}`, after the lines are disabled and the line of `p` is
enabled exactly one of the digit-enable bits 0, 1, 4 of `PORTD` is set (bit 0
for `p = 0`, bit 1 for `p = 1`, bit 4 for `p = 2`), and every other bit of
`PORTD` keeps its prior value. -/
theorem digit_enable (s : State) (p : Nat) (hp : p ≤ 2) (hD : s.PORTD < 256) :
    ∃ s1, digitStep s p = some s1 ∧
      s1.PORTD.testBit 0 = decide (p = 0) ∧
      s1.PORTD.testBit 1 = decide (p = 1) ∧
      s1.PORTD.testBit 4 = decide (p = 2) ∧
      (∀ j, j ≠ 0 → j ≠ 1 → j ≠ 4 → s1.PORTD.testBit j = s.PORTD.testBit j) := by
  obtain ⟨e, pc, he, hstep⟩ := digitStep_PORTD s p hp
  refine ⟨_, hstep, ?_⟩
  have hbit : ∀ j, (withPorts s (((s.PORTD &&& bitNot16 (1 ||| 2 ||| 16)) % 256) ||| e)
      pc).PORTD.testBit j =
      ((!(decide (j = 0) || decide (j = 1) || decide (j = 4)) && s.PORTD.testBit j)
        || e.testBit j) := by
    intro j
    show ((((s.PORTD &&& bitNot16 (1 ||| 2 ||| 16)) % 256) ||| e)).testBit j = _
    rw [Nat.testBit_or, testBit_disable _ _ hD]
  interval_cases p
  · have : e = 2 ^ 0 := by simpa [led7enb] using he.symm
    subst this
    refine ⟨?_, ?_, ?_, ?_⟩
    · rw [hbit, Nat.testBit_two_pow]; simp
    · rw [hbit, Nat.testBit_two_pow]; simp
    · rw [hbit, Nat.testBit_two_pow]; simp
    · intro j a b c
      rw [hbit, Nat.testBit_two_pow]
      have : ¬ (0 = j) := fun h => a h.symm
      simp [a, b, c, this]
  · have : e = 2 ^ 1 := by simpa [led7enb] using he.symm
    subst this
    refine ⟨?_, ?_, ?_, ?_⟩
    · rw [hbit, Nat.testBit_two_pow]; simp
    · rw [hbit, Nat.testBit_two_pow]; simp
    · rw [hbit, Nat.testBit_two_pow]; simp
    · intro j a b c
      rw [hbit, Nat.testBit_two_pow]
      have : ¬ (1 = j) := fun h => b h.symm
      simp [a, b, c, this]
  · have : e = 2 ^ 4 := by simpa [led7enb] using he.symm
    subst this
    refine ⟨?_, ?_, ?_, ?_⟩
    · rw [hbit, Nat.testBit_two_pow]; simp
    · rw [hbit, Nat.testBit_two_pow]; simp
    · rw [hbit, Nat.testBit_two_pow]; simp
    · intro j a b c
      rw [hbit, Nat.testBit_two_pow]
      have : ¬ (4 = j) := fun h => c h.symm
      simp [a, b, c, this]

/-- Witness for C16: position 2 from the setup value `0b00001000` of `PORTD`. -/
theorem digit_enable_witness :
    ∃ s1, digitStep init 2 = some s1 ∧ s1.PORTD.testBit 4 = true ∧
      s1.PORTD.testBit 3 = init.PORTD.testBit 3 :=
  let ⟨s1, h, _, _, h4, hrest⟩ := digit_enable init 2 (by decide) (by decide)
  ⟨s1, h, by simpa using h4, hrest 3 (by decide) (by decide) (by decide)⟩

/-- C17: for every `n` in `[0,255]` the three digits produced by `get_digit`
recompose `n`, `get_digit n 0 + 10 * get_digit n 1 + 100 * get_digit n 2 = n`,
and each of them lies in `[0,9]`. -/
theorem get_digit_recompose (n : Nat) (hn : n ≤ 255) :
    ∃ d0 d1 d2 : Int,
      get_digit n ((0 : Nat) : Int) = some d0 ∧
      get_digit n ((1 : Nat) : Int) = some d1 ∧
      get_digit n ((2 : Nat) : Int) = some d2 ∧
      d0 + 10 * d1 + 100 * d2 = n ∧
      (0 ≤ d0 ∧ d0 ≤ 9) ∧ (0 ≤ d1 ∧ d1 ≤ 9) ∧ (0 ≤ d2 ∧ d2 ≤ 9) := by
  obtain ⟨h0, h1, h2⟩ := get_digit_nat n
  refine ⟨_, _, _, h0, h1, h2, ?_, ?_, ?_, ?_⟩ <;> omega

/-- Witness for C17 at `n = 247`. -/
theorem get_digit_recompose_witness :
    ∃ d0 d1 d2 : Int,
      get_digit ((247 : Nat) : Int) ((0 : Nat) : Int) = some d0 ∧
      get_digit ((247 : Nat) : Int) ((1 : Nat) : Int) = some d1 ∧
      get_digit ((247 : Nat) : Int) ((2 : Nat) : Int) = some d2 ∧
      d0 + 10 * d1 + 100 * d2 = ((247 : Nat) : Int) :=
  let ⟨d0, d1, d2, h0, h1, h2, hsum, _⟩ := get_digit_recompose 247 (by decide)
  ⟨d0, d1, d2, h0, h1, h2, hsum⟩

/-- C18: for every `port` value, every digit and every mapper `adr` with four
lowest set bits `p0 < p1 < p2 < p3` among bits 0..7, `display7seg` leaves every
bit of the port outside `adr` unchanged and makes the bits inside `adr` equal
to those of `mapping4b digit adr` (all `adr` bits are cleared first, and the
encoder output is a subset of `adr`); with the mapper `0b01000111` of `main`
only bits 0, 1, 2 and 6 of the port can change. -/
theorem display7seg_frame (digit port adr p0 p1 p2 p3 : Nat)
    (hport : port < 65536) (hadr : adr < 256)
    (h01 : p0 < p1) (h12 : p1 < p2) (h23 : p2 < p3) (h3 : p3 ≤ 7)
    (hs0 : adr.testBit p0 = true) (hs1 : adr.testBit p1 = true)
    (hs2 : adr.testBit p2 = true) (hs3 : adr.testBit p3 = true)
    (hlow : ∀ j, j < p3 → adr.testBit j = true → j = p0 ∨ j = p1 ∨ j = p2) :
    (∃ m r, mapping4b digit adr = some m ∧ display7seg digit port adr = some r ∧
      (∀ j, adr.testBit j = false → r.testBit j = port.testBit j) ∧
      (∀ j, adr.testBit j = true → r.testBit j = m.testBit j) ∧
      (∀ j, adr.testBit j = true → (port &&& bitNot16 adr).testBit j = false) ∧
      (∀ j, m.testBit j = true → adr.testBit j = true)) ∧
    (∃ r, display7seg digit port led7seg = some r ∧
      ∀ j, j ≠ 0 → j ≠ 1 → j ≠ 2 → j ≠ 6 → r.testBit j = port.testBit j) := by
  have gen : ∀ (a m : Nat), a < 256 → mapping4b digit a = some m →
      (∀ j, m.testBit j = true → a.testBit j = true) →
      ∃ r, display7seg digit port a = some r ∧
        (∀ j, a.testBit j = false → r.testBit j = port.testBit j) ∧
        (∀ j, a.testBit j = true → r.testBit j = m.testBit j) := by
    intro a m ha hm hsub
    obtain ⟨r, hr, hbit⟩ := display7seg_testBit digit port a m (by omega) hm
    refine ⟨r, hr, ?_, ?_⟩
    · intro j hj
      have hmj : m.testBit j = false := by
        cases hb : m.testBit j with
        | false => rfl
        | true => rw [hsub j hb] at hj; exact absurd hj (by decide)
      rw [hbit, hj, hmj]
      by_cases h16 : j < 16
      · simp [h16]
      · simp [h16, testBit_high_of_lt_65536 port j hport (by omega)]
    · intro j hj
      rw [hbit, hj]
      simp
  constructor
  · obtain ⟨m, hm, hsub⟩ :=
      mapping4b_subset digit adr p0 p1 p2 p3 h01 h12 h23 h3 hs0 hs1 hs2 hs3 hlow
    obtain ⟨r, hr, hout, hin⟩ := gen adr m hadr hm hsub
    refine ⟨m, r, hm, hr, hout, hin, ?_, hsub⟩
    intro j hj
    rw [Nat.testBit_and, testBit_bitNot16 _ _ (by omega), hj]
    simp
  · obtain ⟨m, hm, hsub⟩ :=
      mapping4b_subset digit led7seg 0 1 2 6 (by decide) (by decide) (by decide)
        (by decide) (by decide) (by decide) (by decide) (by decide)
        (by
          intro j hj
          interval_cases j <;> simp [led7seg] <;> decide)
    obtain ⟨r, hr, hout, _⟩ := gen led7seg m (by decide) hm hsub
    refine ⟨r, hr, ?_⟩
    intro j a b c d
    apply hout
    by_cases h8 : j < 8
    · interval_cases j <;> first | contradiction | decide
    · exact testBit_high_of_lt_256 led7seg j (by decide) (by omega)

/-- Witness for C18: digit 9 written through the mapper `0b01000111`. -/
theorem display7seg_frame_witness :
    ∃ r, display7seg 9 0b10111000 led7seg = some r ∧
      ∀ j, j ≠ 0 → j ≠ 1 → j ≠ 2 → j ≠ 6 → r.testBit j = Nat.testBit 0b10111000 j :=
  (display7seg_frame 9 0b10111000 0b01000111 0 1 2 6 (by decide) (by decide)
    (by decide) (by decide) (by decide) (by decide)
    (by decide) (by decide) (by decide) (by decide)
    (by
      intro j hj
      interval_cases j <;> simp <;> decide)).2

/-- C19: composing the light formula with the duty thresholds, for every raw
reading in `[1,1023]` on the LIGHT step the duty written is 0 when
`raw ≤ 681`, 125 when `682 ≤ raw ≤ 786` and 255 when `raw ≥ 787`; so the duty
is a non-decreasing function of the raw reading. -/
theorem duty_of_raw (pf : Target) (s : State) (raw : Nat)
    (hc : s.current = 2) (h1 : 1 ≤ raw) (h2 : raw ≤ 1023) :
    (raw ≤ 681 → (ADC_vect pf s raw).OCR0A = 0) ∧
    (682 ≤ raw → raw ≤ 786 → (ADC_vect pf s raw).OCR0A = 125) ∧
    (787 ≤ raw → (ADC_vect pf s raw).OCR0A = 255) ∧
    (∀ (t : State) (raw2 : Nat), t.current = 2 → raw ≤ raw2 → raw2 ≤ 1023 →
      (ADC_vect pf s raw).OCR0A ≤ (ADC_vect pf t raw2).OCR0A) := by
  have hs := (ADC_vect_light pf s raw hc h1 h2).2
  refine ⟨?_, ?_, ?_, ?_⟩
  · intro h; rw [hs]; simp [h]
  · intro ha hb
    rw [hs]
    have : ¬ raw ≤ 681 := by omega
    simp [this, hb]
  · intro h
    rw [hs]
    have a : ¬ raw ≤ 681 := by omega
    have b : ¬ raw ≤ 786 := by omega
    simp [a, b]
  · intro t raw2 ht h12 hr2
    rw [hs, (ADC_vect_light pf t raw2 ht (by omega) hr2).2]
    split_ifs <;> omega

/-- Witness for C19: raw reading 700 gives duty 125. -/
theorem duty_of_raw_witness :
    (ADC_vect saturating { init with current := 2 } 700).OCR0A = 125 :=
  (duty_of_raw saturating { init with current := 2 } 700
    (by decide) (by decide) (by decide)).2.1 (by decide) (by decide)

/-- C20: for every mapper whose four lowest set bits `p0 < p1 < p2 < p3` are
among positions 0..7 and every `bits`, `mapping4b` returns: the `for` loop runs
exactly four times, every inner scan stops at a position at most 7 (so every
shift amount is in `[0,7]`), and the scan index ends at `p3 + 1 ≤ 8`.  Where a
mapper has no set bit from the scan's start up to position 7 the scan finds
none below position 8; for `mapper = 0` no scan returns and `mapping4b` has no
result. -/
theorem mapping4b_terminates (bits mapper p0 p1 p2 p3 : Nat)
    (h01 : p0 < p1) (h12 : p1 < p2) (h23 : p2 < p3) (h3 : p3 ≤ 7)
    (hs0 : mapper.testBit p0 = true) (hs1 : mapper.testBit p1 = true)
    (hs2 : mapper.testBit p2 = true) (hs3 : mapper.testBit p3 = true)
    (hlow : ∀ j, j < p3 → mapper.testBit j = true → j = p0 ∨ j = p1 ∨ j = p2) :
    (∃ (out it : Nat) (stops : List Nat),
      mapLoopTrace bits mapper 4 0 0 0 [] = some (out, it, stops) ∧
      mapping4b bits mapper = some (out % 256) ∧
      stops = [p0, p1, p2, p3] ∧ stops.length = 4 ∧ (∀ p ∈ stops, p ≤ 7) ∧
      it = p3 + 1 ∧ it ≤ 8) ∧
    (∀ (m k it p : Nat), (∀ j, it ≤ j → j < 8 → m.testBit j = false) →
      findOne m k it = some p → 8 ≤ p) ∧
    (∀ k it : Nat, findOne 0 k it = none) ∧
    mapping4b bits 0 = none := by
  refine ⟨?_, ?_, findOne_zero, ?_⟩
  · obtain ⟨out, hout⟩ :=
      mapLoopTrace_four bits mapper p0 p1 p2 p3 h01 h12 h23 h3 hs0 hs1 hs2 hs3 hlow
    have hmap := mapLoopTrace_out bits mapper 4 0 0 0 []
    rw [hout] at hmap
    refine ⟨out, p3 + 1, [p0, p1, p2, p3], hout, ?_, rfl, rfl, ?_, rfl, by omega⟩
    · simp only [Option.map_some'] at hmap
      simp [mapping4b, ← hmap]
    · intro p hp
      simp only [List.mem_cons, List.mem_singleton, List.not_mem_nil, or_false] at hp
      rcases hp with h | h | h | h <;> omega
  · intro m k it p hnone hf
    obtain ⟨hle, hbit⟩ := findOne_some m k it p hf
    by_contra hlt
    have := hnone p hle (by omega)
    rw [this] at hbit
    exact absurd hbit (by decide)
  · simp [mapping4b, mapLoop, findOne_zero]

/-- Witness for C20: the mapper `0b01000111` of `main`, scans stopping at
positions 0, 1, 2 and 6. -/
theorem mapping4b_terminates_witness :
    ∃ (out it : Nat) (stops : List Nat),
      mapLoopTrace 9 0b01000111 4 0 0 0 [] = some (out, it, stops) ∧
      mapping4b 9 0b01000111 = some (out % 256) ∧
      stops = [0, 1, 2, 6] ∧ stops.length = 4 ∧ (∀ p ∈ stops, p ≤ 7) ∧
      it = 6 + 1 ∧ it ≤ 8 :=
  (mapping4b_terminates 9 0b01000111 0 1 2 6 (by decide) (by decide) (by decide)
    (by decide) (by decide) (by decide) (by decide) (by decide)
    (by
      intro j hj
      interval_cases j <;> simp <;> decide)).1

end EResistance
